import Mathlib

/-!
Shallow embedding of the GA4GH server's paginated response accumulator
(`ga4gh/protocol.py`, class `SearchResponseBuilder`) and of the schema-driven
instance synthesizer (`ga4gh/prototools.py`, class `ProtoTypeSwitch` and its
policy subclasses), together with proofs settling the specification claims.

Conventions of the embedding:
- Python integers are `Int` (unbounded); counters that are only ever
  incremented from zero are `Nat`.
- Python `None` for the page token is `Option String`.
- The external protobuf serializer's byte-size introspection
  (`protoObject.ByteSize()`) is modelled by an explicit wire-size function
  over the container's two fields (one repeated message field, one proto3
  string field), parameterized by the payload size of each element.
- Exceptions are `Except PyErr`.
-/

namespace Ga4gh

/-! Wire-size model of the external serializer.

The response container built by `SearchResponseBuilder` is a proto3 message
with exactly one repeated message field (the value list) and one singular
string field (`next_page_token`, a field number below 16, hence a one-byte
tag).  `ByteSize()` of such a message is the sum, over the populated fields,
of tag byte + varint-encoded payload length + payload; a proto3 string field
equal to the empty string (its default) contributes nothing. -/

/-- Worker for `varintLen`, structurally recursive on a fuel argument so
that closed instances evaluate; `varintLen_eq` below recovers the
intended recurrence. -/
def varintLenAux : Nat → Nat → Nat
  | 0, _ => 1
  | fuel + 1, n => if n < 128 then 1 else 1 + varintLenAux fuel (n / 128)

/-- Number of bytes of the varint encoding of `n` (7 bits per byte). -/
def varintLen (n : Nat) : Nat := varintLenAux n n

/-- Wire size of one length-delimited field with a one-byte tag and a
payload of `payload` bytes. -/
def lenDelimSize (payload : Nat) : Nat := 1 + varintLen payload + payload

/-- Wire size contributed by a proto3 string field (one-byte tag): nothing
when the string holds its default (empty) value. -/
def stringFieldSize (s : String) : Nat :=
  if s = "" then 0 else lenDelimSize s.utf8ByteSize

/-- The internal response container (`self._protoObject`): the named
repeated field holding the accumulated values, and the `next_page_token`
string field (proto3 default: empty string).  `V` is the element message
type; `elemSize v` below stands for `v.ByteSize()`. -/
structure ProtoObject (V : Type) where
  values : List V
  next_page_token : String
deriving Repr

/-- Model of `protoObject.ByteSize()`, the external serializer's byte-size
introspection for the container shape above. -/
def byteSize {V : Type} (elemSize : V → Nat) (o : ProtoObject V) : Nat :=
  (o.values.map (fun v => lenDelimSize (elemSize v))).sum +
    stringFieldSize o.next_page_token

/-! Embedding of `SearchResponseBuilder` (ga4gh/protocol.py lines 100-183). -/

/-- State of a `SearchResponseBuilder`: the constructor parameters
`pageSize` and `maxResponseLength`, the element counter `_numElements`,
the token `_nextPageToken` (Python `None` until set) and the container
`_protoObject`. -/
structure SearchResponseBuilder (V : Type) where
  pageSize : Int
  maxResponseLength : Int
  numElements : Nat
  nextPageToken : Option String
  protoObject : ProtoObject V
deriving Repr

/-- Embeds `SearchResponseBuilder.__init__`: zero elements, no token, an empty
container. -/
def mkBuilder (V : Type) (pageSize maxResponseLength : Int) :
    SearchResponseBuilder V :=
  { pageSize := pageSize
    maxResponseLength := maxResponseLength
    numElements := 0
    nextPageToken := none
    protoObject := { values := [], next_page_token := "" } }

/-- Embeds `addValue`: increments `_numElements` and appends a copy of the element
to the end of the container's repeated field. -/
def addValue {V : Type} (b : SearchResponseBuilder V) (v : V) :
    SearchResponseBuilder V :=
  { b with
    numElements := b.numElements + 1
    protoObject := { b.protoObject with
                     values := b.protoObject.values ++ [v] } }

/-- A sequence of `addValue` calls, in order. -/
def addValues {V : Type} (b : SearchResponseBuilder V) (vs : List V) :
    SearchResponseBuilder V :=
  vs.foldl addValue b

/-- Embeds `setNextPageToken`: overwrites the token attribute (the container is
untouched). -/
def setNextPageToken {V : Type} (b : SearchResponseBuilder V)
    (t : Option String) : SearchResponseBuilder V :=
  { b with nextPageToken := t }

/-- Embeds `isFull`:
`(pageSize > 0 and numElements >= pageSize) or
 (maxResponseLength > 0 and protoObject.ByteSize() >= maxResponseLength)`. -/
def isFull {V : Type} (elemSize : V → Nat) (b : SearchResponseBuilder V) :
    Bool :=
  (decide (b.pageSize > 0) && decide ((b.numElements : Int) ≥ b.pageSize)) ||
  (decide (b.maxResponseLength > 0) &&
   decide ((byteSize elemSize b.protoObject : Int) ≥ b.maxResponseLength))

/-- Modelled from the spec: the helper `pb.string` (module `ga4gh/pb.py`,
not shipped under src/) turns an unset (`None`) token into the empty
string and passes a set token through unchanged ("sets the container's
continuation-token field to the empty string if none was set"). -/
def pbString : Option String → String
  | none => ""
  | some s => s

/-- Embeds `getSerializedResponse`: writes `pb.string(self._nextPageToken)` into
the container's `next_page_token` field, then returns the JSON text
produced by the external serializer (`toJson`, passed in as an opaque
function) together with the mutated builder state. -/
def getSerializedResponse {V : Type} (toJson : ProtoObject V → String)
    (b : SearchResponseBuilder V) : String × SearchResponseBuilder V :=
  let obj := { b.protoObject with next_page_token := pbString b.nextPageToken }
  (toJson obj, { b with protoObject := obj })

/-- The builder operations other than construction and pure getters, for
stating temporal properties over call sequences. -/
inductive BuilderOp (V : Type) where
  | add (v : V)
  | setToken (t : Option String)
deriving Repr

/-- Run a sequence of mutating builder operations. -/
def runOps {V : Type} (b : SearchResponseBuilder V) :
    List (BuilderOp V) → SearchResponseBuilder V
  | [] => b
  | .add v :: rest => runOps (addValue b v) rest
  | .setToken t :: rest => runOps (setNextPageToken b t) rest

/-! Embedding of the field-name case converters
(`ProtoTypeSwitch.toCamelCase` / `toSnakeCase`, ga4gh/prototools.py lines
190-206).  Python strings are modelled as their lists of characters; the
character predicates (`isnumeric`, `upper`, `title`) are modelled for the
ASCII alphabet the schema's field names draw from (letters, digits,
underscore). -/

/-- Lower-cases every character: Python `str.lower()` on ASCII text. -/
def lowerAll (s : List Char) : List Char := s.map Char.toLower

/-- Embeds Python `str.split(sep)` for a one-character separator: keeps
empty segments, and splitting the empty string yields one empty segment. -/
def pySplit : List Char → List (List Char)
  | [] => [[]]
  | c :: rest =>
    if c = '_' then [] :: pySplit rest
    else
      match pySplit rest with
      | s :: ss => (c :: s) :: ss
      | [] => [[c]]

/-- Worker for `pyTitle`: the flag records whether the previous character
was cased (for the ASCII field-name alphabet: was a letter). -/
def pyTitleGo : Bool → List Char → List Char
  | _, [] => []
  | prevCased, c :: rest =>
    if c.isAlpha then
      (if prevCased then c.toLower else c.toUpper) :: pyTitleGo true rest
    else
      c :: pyTitleGo false rest

/-- Embeds Python `str.title()` on ASCII text: the first letter of every
letter-run is upper-cased, every other letter is lower-cased, non-letters
pass through and end the current run. -/
def pyTitle (s : List Char) : List Char := pyTitleGo false s

/-- Embeds `ProtoTypeSwitch.toCamelCase`: split on underscore, keep the
first segment as written, title-case and concatenate the rest. -/
def toCamelCase (s : List Char) : List Char :=
  match pySplit s with
  | c0 :: rest => c0 ++ (rest.map pyTitle).flatten
  | [] => []

/-- Worker for `toSnakeCase`: the source's loop over the characters with
its `components` and `current` accumulators.  A character `c` with
`(not c.isnumeric()) and c.upper() == c` (for the ASCII field-name
alphabet: anything but a digit or a lower-case letter) starts a new
component. -/
def snakeGo : List (List Char) → List Char → List Char → List (List Char)
  | comps, current, [] => comps ++ [lowerAll current]
  | comps, current, c :: rest =>
    if ¬ c.isDigit ∧ c.toUpper = c then
      snakeGo (comps ++ [lowerAll current]) [c] rest
    else
      snakeGo comps (current ++ [c]) rest

/-- Embeds `ProtoTypeSwitch.toSnakeCase`: scan the characters, close the
current component at every upper-case (non-numeric) character, lower-case
all components and join them with underscores. -/
def toSnakeCase (s : List Char) : List Char :=
  List.intercalate ['_'] (snakeGo [] [] s)

/-- Canonical underscore-join of a list of segments, the direct recursion
`toSnakeCase` is compared against: `joinU [s]` is `s` and
`joinU (s :: rest)` is `s ++ underscore ++ joinU rest`. -/
def joinU : List (List Char) → List Char
  | [] => []
  | [s] => s
  | s :: rest => s ++ '_' :: joinU rest

/-- The amended field-name format for the case-converter round trip: a
nonempty segment of lower-case ASCII letters. -/
def lowerSeg (s : List Char) : Bool :=
  !s.isEmpty && s.all Char.isLower

/-! Embedding of the schema model consumed by `ProtoTypeSwitch`
(google.protobuf descriptors, as far as the dispatch in
ga4gh/prototools.py reads them). -/

/-- Python exceptions raised by the embedded code paths: `IndexError`
(out-of-range subscript), `NameError` (a loop variable read although the
loop never ran). -/
inductive PyErr where
  | indexError
  | nameError
deriving Repr, DecidableEq

/-- Enum descriptor: the declared value names in declaration order
(`schema.values[i].name`). -/
structure EnumSchema where
  values : List String
deriving Repr, DecidableEq

mutual

/-- Message descriptor: `full_name`, the `map_entry` message option read by
`json_format._IsMapEntry`, and the ordered field list. -/
inductive MessageSchema : Type where
  | mk (fullName : String) (mapEntry : Bool) (fields : List FieldDesc)

/-- Field descriptor: `name`, `type`, and whether `label` is
`LABEL_REPEATED`. -/
inductive FieldDesc : Type where
  | mk (name : String) (ftype : FieldType) (repeated : Bool)

/-- Field types handled by the `field_switch` dictionary of
`ProtoTypeSwitch.handleField` (`TYPE_BOOL`, `TYPE_STRING`, `TYPE_INT64`,
`TYPE_INT32`, `TYPE_FLOAT`, `TYPE_DOUBLE`, `TYPE_ENUM`, `TYPE_MESSAGE`;
a field of any other descriptor type raises `KeyError` before any other
logic runs and is outside this model). -/
inductive FieldType : Type where
  | tBool
  | tString
  | tInt32
  | tInt64
  | tFloat
  | tDouble
  | tEnum (e : EnumSchema)
  | tMessage (m : MessageSchema)

end

/-- Projection: `schema.full_name`. -/
def MessageSchema.fullName : MessageSchema → String
  | .mk n _ _ => n

/-- Projection: `schema.GetOptions().map_entry`. -/
def MessageSchema.mapEntry : MessageSchema → Bool
  | .mk _ b _ => b

/-- Projection: `schema.fields`. -/
def MessageSchema.fields : MessageSchema → List FieldDesc
  | .mk _ _ fs => fs

/-- Projection: `field.name`. -/
def FieldDesc.name : FieldDesc → String
  | .mk n _ _ => n

/-- Projection: `field.type`. -/
def FieldDesc.ftype : FieldDesc → FieldType
  | .mk _ t _ => t

/-- Projection: `field.label == LABEL_REPEATED`. -/
def FieldDesc.repeated : FieldDesc → Bool
  | .mk _ _ r => r

/-- Embeds `json_format._IsMapEntry(field)`: the field's type is a message
whose descriptor carries the `map_entry` option. -/
def isMapEntry (fd : FieldDesc) : Bool :=
  match fd.ftype with
  | .tMessage m => m.mapEntry
  | _ => false

/-- Fields of the field's entry message (`field.message_type.fields`);
empty for a non-message field. -/
def entryFields (fd : FieldDesc) : List FieldDesc :=
  match fd.ftype with
  | .tMessage m => m.fields
  | _ => []

/-- Untyped value trees (Python `jsonDict` values) produced by synthesis.
Python floats appear only as generated literals and are carried as
rationals; dictionaries are association lists in insertion order (map-entry
synthesis can produce non-string keys, so keys are full values; message
synthesis always inserts string keys). -/
inductive JValue : Type where
  | jNull
  | jBool (b : Bool)
  | jInt (n : Int)
  | jFloat (q : Rat)
  | jStr (s : String)
  | jList (xs : List JValue)
  | jDict (entries : List (JValue × JValue))

/-- One generation policy: the per-primitive-kind rules a
`ProtoTypeSwitch` subclass supplies.  The state `σ` threads the
process-wide random source explicitly (deterministic policies ignore it);
a rule may raise (`random.choice` / subscripting on an empty enum). -/
structure Policy (σ : Type) where
  handleBoolean : σ → Except PyErr (JValue × σ)
  handleString : σ → Except PyErr (JValue × σ)
  handleInt : σ → Except PyErr (JValue × σ)
  handleLong : σ → Except PyErr (JValue × σ)
  handleFloat : σ → Except PyErr (JValue × σ)
  handleDouble : σ → Except PyErr (JValue × σ)
  handleEnum : EnumSchema → σ → Except PyErr (JValue × σ)

mutual

/-- Embeds `ProtoTypeSwitch.handleField`: a map-entry field runs once, a
repeated field runs the element rule exactly twice and wraps the results in
a list, a singular field runs once. -/
def handleField {σ : Type} (p : Policy σ) (fd : FieldDesc) (g : σ) :
    Except PyErr (JValue × σ) :=
  if isMapEntry fd then runField p fd g
  else if fd.repeated then do
    let (a, g1) ← runField p fd g
    let (b, g2) ← runField p fd g1
    pure (.jList [a, b], g2)
  else runField p fd g

/-- Embeds `ProtoTypeSwitch._runField`: a map entry becomes a one-entry
dictionary from the synthesized key sub-field to the synthesized value
sub-field (`fields[0]` / `fields[1]`, `IndexError` if the entry message is
malformed); a message field recurses into `handleMessage`; an enum or
primitive field runs the policy's rule. -/
def runField {σ : Type} (p : Policy σ) (fd : FieldDesc) (g : σ) :
    Except PyErr (JValue × σ) :=
  match fd with
  | .mk _ (.tMessage (.mk _ true (kf :: vf :: _))) _ => do
    let (k, g1) ← handleField p kf g
    let (v, g2) ← handleField p vf g1
    pure (.jDict [(k, v)], g2)
  | .mk _ (.tMessage (.mk _ true _)) _ => throw .indexError
  | .mk _ (.tMessage m) _ => handleMessage p m g
  | .mk _ (.tEnum e) _ => p.handleEnum e g
  | .mk _ .tBool _ => p.handleBoolean g
  | .mk _ .tString _ => p.handleString g
  | .mk _ .tInt32 _ => p.handleInt g
  | .mk _ .tInt64 _ => p.handleLong g
  | .mk _ .tFloat _ => p.handleFloat g
  | .mk _ .tDouble _ => p.handleDouble g

/-- Embeds `ProtoTypeSwitch.handleMessage`: the designated generic-value
sum type `google.protobuf.Value` produces only the `numberValue` entry via
the policy's double rule; every other message maps each field's camel-cased
name to its synthesized value, in declaration order. -/
def handleMessage {σ : Type} (p : Policy σ) (m : MessageSchema) (g : σ) :
    Except PyErr (JValue × σ) :=
  if m.fullName = "google.protobuf.Value" then do
    let (v, g1) ← p.handleDouble g
    pure (.jDict [(.jStr "numberValue", v)], g1)
  else
    match m with
    | .mk _ _ fs => do
      let (entries, g1) ← handleFields p fs g
      pure (.jDict entries, g1)

/-- Worker for the field loop of `handleMessage`, keyed by
`toCamelCase(field.name)` (manual recursion so the recursive call is on a
structurally smaller field). -/
def handleFields {σ : Type} (p : Policy σ) (fs : List FieldDesc) (g : σ) :
    Except PyErr (List (JValue × JValue) × σ) :=
  match fs with
  | [] => pure ([], g)
  | f :: rest => do
    let (v, g1) ← handleField p f g
    let (tailEntries, g2) ← handleFields p rest g1
    pure ((.jStr (String.mk (toCamelCase f.name.data)), v) :: tailEntries, g2)

end

/-- Rules of `TypicalInstanceCreator`: fixed constants per primitive kind,
the first declared value for an enum (subscripting raises `IndexError` on
an empty enum).  `DefaultInstanceCreator` inherits exactly these rules. -/
def typicalPolicy (σ : Type) : Policy σ where
  handleBoolean g := .ok (.jBool true, g)
  handleString g := .ok (.jStr "aString", g)
  handleInt g := .ok (.jInt 5, g)
  handleLong g := .ok (.jInt 6, g)
  handleFloat g := .ok (.jFloat 7, g)
  handleDouble g := .ok (.jFloat 8, g)
  handleEnum e g :=
    match e.values with
    | v :: _ => .ok (.jStr v, g)
    | [] => .error .indexError

/-- Rules of `InvalidInstanceCreator`: a value of the wrong primitive kind
for every kind. -/
def invalidPolicy (σ : Type) : Policy σ where
  handleBoolean g := .ok (.jStr "invalidBoolean", g)
  handleString g := .ok (.jInt 2, g)
  handleInt g := .ok (.jStr "invalidInt", g)
  handleLong g := .ok (.jStr "invalidLong", g)
  handleFloat g := .ok (.jStr "invalidFloat", g)
  handleDouble g := .ok (.jStr "invalidDouble", g)
  handleEnum _ g := .ok (.jStr "invalidEnum", g)

/-- Binding of the loop variable `field` after the loop
`for field in self.schema.fields: if field.name == fieldName: break`:
the first field whose name matches, otherwise the last field the loop ran
over; `none` when the field list is empty and the variable was never
bound. -/
def loopVar : List FieldDesc → String → Option FieldDesc
  | [], _ => none
  | [f], _ => some f
  | f :: f2 :: rest, n =>
    if f.name = n then some f else loopVar (f2 :: rest) n

/-- Embeds `ProtoTypeSwitch.getFieldValue`: run the search loop, then call
`handleField` on whatever the loop variable holds (reading it unbound
raises `NameError`). -/
def getFieldValue {σ : Type} (p : Policy σ) (schema : MessageSchema)
    (fieldName : String) (g : σ) : Except PyErr (JValue × σ) :=
  match loopVar schema.fields fieldName with
  | none => throw .nameError
  | some field => handleField p field g

/-- Embeds `Creator.getInvalidField`: `getFieldValue` under the
invalid-instance rules. -/
def getInvalidField {σ : Type} (schema : MessageSchema) (fieldName : String)
    (g : σ) : Except PyErr (JValue × σ) :=
  getFieldValue (invalidPolicy σ) schema fieldName g

/-! Helper lemmas about the accumulator. -/

theorem addValues_state {V : Type} (vs : List V) (b : SearchResponseBuilder V) :
    addValues b vs =
      { b with
        numElements := b.numElements + vs.length
        protoObject := { b.protoObject with
                         values := b.protoObject.values ++ vs } } := by
  induction vs generalizing b with
  | nil => simp [addValues]
  | cons v vs ih =>
    simp only [addValues, List.foldl_cons] at *
    rw [ih]
    simp [addValue, Nat.add_comm, Nat.add_assoc, Nat.add_left_comm]

theorem addValues_mkBuilder {V : Type} (ps ml : Int) (vs : List V) :
    addValues (mkBuilder V ps ml) vs =
      { pageSize := ps, maxResponseLength := ml, numElements := vs.length
        nextPageToken := none
        protoObject := { values := vs, next_page_token := "" } } := by
  rw [addValues_state]
  simp [mkBuilder]

theorem byteSize_addValue {V : Type} (elemSize : V → Nat)
    (b : SearchResponseBuilder V) (v : V) :
    byteSize elemSize (addValue b v).protoObject =
      byteSize elemSize b.protoObject + lenDelimSize (elemSize v) := by
  simp [addValue, byteSize]
  ring

theorem isFull_addValue {V : Type} (elemSize : V → Nat)
    (b : SearchResponseBuilder V) (v : V)
    (h : isFull elemSize b = true) : isFull elemSize (addValue b v) = true := by
  simp only [isFull, Bool.or_eq_true, Bool.and_eq_true, decide_eq_true_eq] at h ⊢
  have hnum : (addValue b v).numElements = b.numElements + 1 := rfl
  have hps : (addValue b v).pageSize = b.pageSize := rfl
  have hml : (addValue b v).maxResponseLength = b.maxResponseLength := rfl
  have hbs := byteSize_addValue elemSize b v
  rcases h with ⟨h1, h2⟩ | ⟨h1, h2⟩
  · left
    refine ⟨by rw [hps]; exact h1, ?_⟩
    rw [hps, hnum]
    push_cast
    omega
  · right
    refine ⟨by rw [hml]; exact h1, ?_⟩
    rw [hml, hbs]
    push_cast
    omega

theorem isFull_setNextPageToken {V : Type} (elemSize : V → Nat)
    (b : SearchResponseBuilder V) (t : Option String) :
    isFull elemSize (setNextPageToken b t) = isFull elemSize b := rfl

/-! Claim C1. -/

/-- C1. For every accumulator constructed with `(responseType, pageSize,
maxResponseBytes)` and every sequence of `addValue` calls, `isFull()`
returns true if and only if (`pageSize > 0` and the number of values added
so far `≥ pageSize`) or (`maxResponseBytes > 0` and the serialized byte
size of the internal response container `≥ maxResponseBytes`); a cap `≤ 0`
disables that respective test entirely (its disjunct is false). -/
theorem isFull_iff_caps {V : Type} (elemSize : V → Nat) (ps ml : Int)
    (vs : List V) :
    isFull elemSize (addValues (mkBuilder V ps ml) vs) = true ↔
      (ps > 0 ∧ (vs.length : Int) ≥ ps) ∨
      (ml > 0 ∧
        (byteSize elemSize { values := vs, next_page_token := "" } : Int)
          ≥ ml) := by
  rw [addValues_mkBuilder]
  simp [isFull]

/-! Claim C6. -/

/-- C6. After exactly `k` calls to `addValue` the internal count equals `k`
and the named repeated field of the response container holds exactly those
`k` values in order; moreover `addValue` is a total operation that appends
and increments unconditionally (in particular it is never refused after a
cap has been reached — the caps are soft). -/
theorem addValue_count_and_values {V : Type} (ps ml : Int) (vs : List V) :
    (addValues (mkBuilder V ps ml) vs).numElements = vs.length ∧
    (addValues (mkBuilder V ps ml) vs).protoObject.values = vs ∧
    ∀ (b : SearchResponseBuilder V) (v : V),
      (addValue b v).numElements = b.numElements + 1 ∧
      (addValue b v).protoObject.values = b.protoObject.values ++ [v] := by
  rw [addValues_mkBuilder]
  exact ⟨rfl, rfl, fun b v => ⟨rfl, rfl⟩⟩

/-! Claim C7. -/

/-- C7. Serialization via `getSerializedResponse` writes
`pb.string(nextPageToken)` into the container's continuation-token field —
the empty string when no token was set, never an absent field — and is
idempotent: a second call returns the same output and the same state, and
no accumulator state other than the container's token field changes (count,
value list, caps and the token attribute are all unchanged). -/
theorem getSerializedResponse_finalization {V : Type}
    (tj : ProtoObject V → String) (b : SearchResponseBuilder V) :
    ((getSerializedResponse tj b).2.protoObject.next_page_token
        = pbString b.nextPageToken) ∧
    (b.nextPageToken = none →
      (getSerializedResponse tj b).2.protoObject.next_page_token = "") ∧
    getSerializedResponse tj (getSerializedResponse tj b).2
        = getSerializedResponse tj b ∧
    (getSerializedResponse tj b).2.numElements = b.numElements ∧
    (getSerializedResponse tj b).2.protoObject.values
        = b.protoObject.values ∧
    (getSerializedResponse tj b).2.pageSize = b.pageSize ∧
    (getSerializedResponse tj b).2.maxResponseLength
        = b.maxResponseLength ∧
    (getSerializedResponse tj b).2.nextPageToken = b.nextPageToken := by
  refine ⟨rfl, ?_, rfl, rfl, rfl, rfl, rfl, rfl⟩
  intro h
  simp [getSerializedResponse, h, pbString]

/-- Witness for C7 at a concrete accumulator with no token set. -/
theorem getSerializedResponse_finalization_witness :
    (mkBuilder Unit 3 100).nextPageToken = none ∧
    (getSerializedResponse (fun _ => "out")
        (mkBuilder Unit 3 100)).2.protoObject.next_page_token = "" :=
  ⟨rfl,
    (getSerializedResponse_finalization (fun _ => "out")
      (mkBuilder Unit 3 100)).2.1 rfl⟩

/-! Claim C8 (corrected).  Fullness is preserved by every later `addValue`
or `setNextPageToken` call, but it is NOT true that no operation other
than construction can make a full accumulator non-full:
`getSerializedResponse` overwrites the container's token field, and
replacing a previously serialized non-empty token by the empty one shrinks
`ByteSize()`, so an accumulator that was full through the size cap can
become non-full again. -/

/-- C8 (amended). Once `isFull()` has returned true, it returns true after
every subsequent sequence of `addValue` and `setContinuationToken` calls
(no interleaved serialization): among the mutating operations, only
`getSerializedResponse` can make a full accumulator non-full. -/
theorem isFull_terminal {V : Type} (elemSize : V → Nat)
    (b : SearchResponseBuilder V) (ops : List (BuilderOp V))
    (h : isFull elemSize b = true) :
    isFull elemSize (runOps b ops) = true := by
  induction ops generalizing b with
  | nil => exact h
  | cons op rest ih =>
    cases op with
    | add v => exact ih (addValue b v) (isFull_addValue elemSize b v h)
    | setToken t =>
      exact ih (setNextPageToken b t)
        ((isFull_setNextPageToken elemSize b t).trans h)

/-- Witness for C8's amended theorem: a count-full accumulator stays full
through a token update and a further `addValue`. -/
theorem isFull_terminal_witness :
    isFull (fun _ => 0) (addValue (mkBuilder Unit 1 0) ()) = true ∧
    isFull (fun _ => 0)
      (runOps (addValue (mkBuilder Unit 1 0) ())
        [.setToken (some "tok"), .add ()]) = true :=
  ⟨by decide, isFull_terminal _ _ _ (by decide)⟩

/-- Counterexample to C8 as stated.  With `pageSize = 0` and
`maxResponseBytes = 1`: set the token to `"x"` and serialize — the
container now carries a three-byte token field, `isFull()` returns true.
Then set the token to `None`, serialize again (the container's token field
becomes empty, `ByteSize()` drops to zero) and call
`setContinuationToken` once more: `isFull()` now returns false, although
after the earlier true result only `setContinuationToken` and
`getSerializedResponse` calls — and no new construction — took place. -/
theorem isFull_not_terminal_cex :
    (isFull (fun _ => 0)
      (getSerializedResponse (fun _ => "s")
        (setNextPageToken (mkBuilder Unit 0 1) (some "x"))).2 = true) ∧
    (isFull (fun _ => 0)
      (setNextPageToken
        (getSerializedResponse (fun _ => "s")
          (setNextPageToken
            (getSerializedResponse (fun _ => "s")
              (setNextPageToken (mkBuilder Unit 0 1) (some "x"))).2
            none)).2
        none) = false) := by
  decide

/-! Character-level facts (ASCII) used by the case-converter proofs. -/

theorem charToNat_inj {a b : Char} (h : a.toNat = b.toNat) : a = b := by
  have h2 := congrArg Char.ofNat h
  simpa [Char.ofNat_toNat] using h2

theorem toNat_ofNat_valid {n : Nat} (h : n < 55296) : (Char.ofNat n).toNat = n := by
  have hv : n.isValidChar := Or.inl h
  simp only [Char.ofNat, hv, dif_pos, Char.ofNatAux, Char.toNat]
  rfl

theorem isLower_toNat {c : Char} (h : c.isLower = true) :
    97 ≤ c.toNat ∧ c.toNat ≤ 122 := by
  simp only [Char.isLower, ge_iff_le, Bool.and_eq_true, decide_eq_true_eq] at h
  obtain ⟨h1, h2⟩ := h
  rw [UInt32.le_def] at h1 h2
  exact ⟨h1, h2⟩

theorem toUpper_eq_self {u : Char} (h : ¬ (97 ≤ u.toNat ∧ u.toNat ≤ 122)) :
    u.toUpper = u := by
  simp only [Char.toUpper]
  rw [if_neg (by omega)]

theorem toLower_of_lower {c : Char} (h : c.isLower = true) : c.toLower = c := by
  obtain ⟨h1, h2⟩ := isLower_toNat h
  simp only [Char.toLower]
  rw [if_neg (by omega)]

theorem toNat_toUpper_of_lower {c : Char} (h : c.isLower = true) :
    c.toUpper.toNat = c.toNat - 32 := by
  obtain ⟨h1, h2⟩ := isLower_toNat h
  simp only [Char.toUpper]
  rw [if_pos (by omega)]
  exact toNat_ofNat_valid (by omega)

theorem toUpper_ne_of_lower {c : Char} (h : c.isLower = true) : ¬ c.toUpper = c := by
  obtain ⟨h1, h2⟩ := isLower_toNat h
  intro he
  have h3 := congrArg Char.toNat he
  rw [toNat_toUpper_of_lower h] at h3
  omega

theorem toUpper_toUpper_of_lower {c : Char} (h : c.isLower = true) :
    c.toUpper.toUpper = c.toUpper := by
  obtain ⟨h1, h2⟩ := isLower_toNat h
  have hu := toNat_toUpper_of_lower h
  exact toUpper_eq_self (by omega)

theorem toLower_toUpper_of_lower {c : Char} (h : c.isLower = true) :
    c.toUpper.toLower = c := by
  obtain ⟨h1, h2⟩ := isLower_toNat h
  have hu := toNat_toUpper_of_lower h
  apply charToNat_inj
  simp only [Char.toLower]
  rw [if_pos (by omega)]
  rw [toNat_ofNat_valid (by omega)]
  omega

theorem isAlpha_of_lower {c : Char} (h : c.isLower = true) : c.isAlpha = true := by
  simp [Char.isAlpha, h]

theorem isDigit_toNat {u : Char} (h : u.isDigit = true) :
    48 ≤ u.toNat ∧ u.toNat ≤ 57 := by
  simp only [Char.isDigit, ge_iff_le, Bool.and_eq_true, decide_eq_true_eq] at h
  obtain ⟨h1, h2⟩ := h
  rw [UInt32.le_def] at h1 h2
  exact ⟨h1, h2⟩

theorem isDigit_eq_false {u : Char} (h : ¬ (48 ≤ u.toNat ∧ u.toNat ≤ 57)) :
    u.isDigit = false := by
  cases hd : u.isDigit
  · rfl
  · exact absurd (isDigit_toNat hd) h

theorem isDigit_toUpper_of_lower {c : Char} (h : c.isLower = true) :
    c.toUpper.isDigit = false := by
  obtain ⟨h1, h2⟩ := isLower_toNat h
  have hu := toNat_toUpper_of_lower h
  exact isDigit_eq_false (by omega)

theorem ne_underscore_of_lower {c : Char} (h : c.isLower = true) : ¬ c = '_' := by
  intro he
  subst he
  simp [Char.isLower] at h

theorem lowerAll_of_lower {s : List Char} (h : ∀ c ∈ s, c.isLower = true) :
    lowerAll s = s := by
  induction s with
  | nil => rfl
  | cons c cs ih =>
    simp only [lowerAll, List.map_cons]
    rw [toLower_of_lower (h c (by simp))]
    have := ih (fun x hx => h x (by simp [hx]))
    simp only [lowerAll] at this
    rw [this]

/-! Splitting and joining lemmas for the round trip. -/

theorem intercalate_eq_joinU (segs : List (List Char)) :
    List.intercalate ['_'] segs = joinU segs := by
  induction segs with
  | nil => rfl
  | cons s rest ih =>
    cases rest with
    | nil => simp [List.intercalate, joinU]
    | cons s2 rest2 =>
      simp only [List.intercalate, List.intersperse_cons₂,
        List.flatten_cons, joinU]
      simp only [List.intercalate] at ih
      rw [ih]
      simp

theorem pySplit_no_underscore {s : List Char} (h : ∀ c ∈ s, ¬ c = '_') :
    pySplit s = [s] := by
  induction s with
  | nil => rfl
  | cons c cs ih =>
    rw [pySplit]
    rw [if_neg (h c (by simp))]
    rw [ih (fun x hx => h x (by simp [hx]))]

theorem pySplit_append_underscore {s t : List Char}
    (h : ∀ c ∈ s, ¬ c = '_') :
    pySplit (s ++ '_' :: t) = s :: pySplit t := by
  induction s with
  | nil =>
    simp only [List.nil_append]
    rw [pySplit, if_pos rfl]
  | cons c cs ih =>
    simp only [List.cons_append]
    rw [pySplit, if_neg (h c (by simp))]
    rw [ih (fun x hx => h x (by simp [hx]))]

theorem pySplit_joinU {segs : List (List Char)} (hne : segs ≠ [])
    (h : ∀ s ∈ segs, ∀ c ∈ s, ¬ c = '_') :
    pySplit (joinU segs) = segs := by
  induction segs with
  | nil => exact absurd rfl hne
  | cons s rest ih =>
    cases rest with
    | nil => exact pySplit_no_underscore (h s (by simp))
    | cons s2 rest2 =>
      have hj : joinU (s :: s2 :: rest2) = s ++ '_' :: joinU (s2 :: rest2) :=
        rfl
      rw [hj]
      rw [pySplit_append_underscore (h s (by simp))]
      rw [ih (List.cons_ne_nil s2 rest2) (fun x hx => h x (by simp [hx]))]

theorem pyTitleGo_true_of_lower {cs : List Char}
    (h : ∀ c ∈ cs, c.isLower = true) : pyTitleGo true cs = cs := by
  induction cs with
  | nil => rfl
  | cons c cs ih =>
    rw [pyTitleGo]
    rw [if_pos (isAlpha_of_lower (h c (by simp)))]
    rw [if_pos rfl]
    rw [toLower_of_lower (h c (by simp))]
    rw [ih (fun x hx => h x (by simp [hx]))]

theorem pyTitle_of_lower {c : Char} {cs : List Char} (hc : c.isLower = true)
    (h : ∀ x ∈ cs, x.isLower = true) :
    pyTitle (c :: cs) = c.toUpper :: cs := by
  rw [pyTitle, pyTitleGo]
  rw [if_pos (isAlpha_of_lower hc)]
  rw [if_neg (by simp)]
  rw [pyTitleGo_true_of_lower h]

theorem snakeGo_lower_run {cs : List Char} (h : ∀ c ∈ cs, c.isLower = true)
    (comps : List (List Char)) (cur t : List Char) :
    snakeGo comps cur (cs ++ t) = snakeGo comps (cur ++ cs) t := by
  induction cs generalizing cur with
  | nil => simp
  | cons c cs ih =>
    simp only [List.cons_append]
    rw [snakeGo]
    rw [if_neg (by
      intro hcon
      exact toUpper_ne_of_lower (h c (by simp)) hcon.2)]
    rw [ih (fun x hx => h x (by simp [hx])) (cur ++ [c])]
    simp

theorem lowerSeg_iff {s : List Char} :
    lowerSeg s = true ↔ ¬ s = [] ∧ ∀ c ∈ s, c.isLower = true := by
  simp [lowerSeg, List.all_eq_true, List.isEmpty_eq_false]

theorem snakeGo_titled_segs {segs : List (List Char)}
    (h : ∀ s ∈ segs, lowerSeg s = true) (comps : List (List Char))
    (cur : List Char) :
    snakeGo comps cur ((segs.map pyTitle).flatten) =
      comps ++ [lowerAll cur] ++ segs := by
  induction segs generalizing comps cur with
  | nil => simp [snakeGo]
  | cons s rest ih =>
    obtain ⟨hne, hlow⟩ := lowerSeg_iff.mp (h s (by simp))
    cases s with
    | nil => exact absurd rfl hne
    | cons c cs =>
      have hc : c.isLower = true := hlow c (by simp)
      have hcs : ∀ x ∈ cs, x.isLower = true :=
        fun x hx => hlow x (by simp [hx])
      simp only [List.map_cons, List.flatten_cons]
      rw [pyTitle_of_lower hc hcs]
      simp only [List.cons_append]
      rw [snakeGo]
      rw [if_pos (by
        refine ⟨?_, toUpper_toUpper_of_lower hc⟩
        rw [isDigit_toUpper_of_lower hc]
        simp)]
      rw [snakeGo_lower_run hcs _ [c.toUpper]]
      rw [ih (fun x hx => h x (by simp [hx]))]
      have hlowAll : lowerAll ([c.toUpper] ++ cs) = c :: cs := by
        simp only [lowerAll, List.map_append, List.map_cons, List.map_nil]
        rw [toLower_toUpper_of_lower hc]
        have h2 := lowerAll_of_lower hcs
        simp only [lowerAll] at h2
        rw [h2]
        simp
      rw [hlowAll]
      simp

/-! Claim C3 (corrected).  The converters are NOT inverse on the full
field-name alphabet (letters, digits, underscore): a digit-initial
segment is glued to its predecessor (`toCamelCase` title-cases `"1"` to
`"1"` and `toSnakeCase` treats digits as word-interior), so
`toSnakeCase(toCamelCase("abc_1")) = "abc1" ≠ "abc_1"`; an upper-case
letter is likewise not restored.  The round trip does hold on names made
of nonempty all-lower-case-letter segments. -/

/-- Counterexample to C3 as stated: the name `abc_1` is drawn from the
claimed alphabet (letters, digits, underscore) but does not survive the
round trip — `toSnakeCase (toCamelCase "abc_1")` is `abc1`. -/
theorem roundTrip_fails_on_digit_segment :
    (('a' :: 'b' :: 'c' :: '_' :: '1' :: []).all
      (fun c => c.isAlpha || c.isDigit || decide (c = '_')) = true) ∧
    toSnakeCase (toCamelCase ('a' :: 'b' :: 'c' :: '_' :: '1' :: [])) =
      ('a' :: 'b' :: 'c' :: '1' :: []) ∧
    ¬ toSnakeCase (toCamelCase ('a' :: 'b' :: 'c' :: '_' :: '1' :: [])) =
      ('a' :: 'b' :: 'c' :: '_' :: '1' :: []) := by
  decide

/-- C3 (amended). For every field name that is an underscore-join of
nonempty all-lower-case-ASCII-letter segments — the format protobuf
recommends and every GA4GH schema field uses — `toSnakeCase` is an exact
left inverse of `toCamelCase`: `toSnakeCase (toCamelCase n) = n`. -/
theorem toSnakeCase_toCamelCase_of_lower (segs : List (List Char))
    (hne : ¬ segs = []) (hsegs : ∀ s ∈ segs, lowerSeg s = true) :
    toSnakeCase (toCamelCase (List.intercalate ['_'] segs)) =
      List.intercalate ['_'] segs := by
  rw [intercalate_eq_joinU]
  have hnou : ∀ s ∈ segs, ∀ c ∈ s, ¬ c = '_' := by
    intro s hs c hc
    have := hsegs s hs
    simp only [lowerSeg, Bool.and_eq_true, List.all_eq_true] at this
    exact ne_underscore_of_lower (this.2 c hc)
  cases segs with
  | nil => exact absurd rfl hne
  | cons s0 rest =>
    obtain ⟨hs0ne, hs0low⟩ := lowerSeg_iff.mp (hsegs s0 (by simp))
    rw [toCamelCase, pySplit_joinU (List.cons_ne_nil s0 rest) hnou]
    rw [toSnakeCase]
    rw [snakeGo_lower_run hs0low [] [] _]
    simp only [List.nil_append]
    rw [snakeGo_titled_segs
      (fun x hx => hsegs x (List.mem_cons_of_mem s0 hx)) [] s0]
    simp only [List.nil_append]
    rw [lowerAll_of_lower hs0low]
    rw [intercalate_eq_joinU]
    rfl

/-- Witness for the amended C3 at the concrete schema field name
`variant_set_ids`. -/
theorem toSnakeCase_toCamelCase_witness :
    (¬ (["variant".data, "set".data, "ids".data] : List (List Char)) = []) ∧
    (∀ s ∈ (["variant".data, "set".data, "ids".data] : List (List Char)),
      lowerSeg s = true) ∧
    toSnakeCase (toCamelCase
        (List.intercalate ['_']
          ["variant".data, "set".data, "ids".data])) =
      List.intercalate ['_'] ["variant".data, "set".data, "ids".data] :=
  ⟨by decide, by decide,
    toSnakeCase_toCamelCase_of_lower _ (by decide) (by decide)⟩

/-! Claim C2 (corrected).  `handleField` is shared by all the creator
subclasses, and its repeated branch runs the element rule exactly twice
for EVERY policy; the per-policy `handleArray` methods (`length = 10`
under Random, the string sentinel under Invalid) are never invoked by the
dispatch (`handleField` / `_runField` / `handleMessage` never call
`handleArray`), so neither the 10-element Random list nor the Invalid
non-list sentinel ever materializes for a repeated field of a message
schema. -/

/-- Counterexample to C2 as stated: under the Invalid policy a repeated
(non-map) string field synthesizes to the two-element list
`[2, 2]` — a list, not the claimed wrong-shaped non-list sentinel. -/
theorem invalid_repeated_field_is_list_cex :
    handleField (invalidPolicy Unit)
      (.mk "variant_set_ids" .tString true) () =
      .ok (.jList [.jInt 2, .jInt 2], ()) ∧
    ¬ (JValue.jList [JValue.jInt 2, JValue.jInt 2]
        = .jStr "invalidArray") := by
  constructor
  · simp [handleField, runField, invalidPolicy, isMapEntry, FieldDesc.ftype,
      FieldDesc.repeated, bind, Except.bind, pure, Except.pure]
  · intro h
    cases h

/-- C2 (amended). For every policy (Typical, Default, Random and Invalid
alike) and every repeated non-map field, a successful synthesis returns a
list of exactly 2 elements: the element rule run twice in sequence. -/
theorem handleField_repeated_two {σ : Type} (p : Policy σ) (fd : FieldDesc)
    (g g2 : σ) (v : JValue)
    (hrep : fd.repeated = true) (hmap : isMapEntry fd = false)
    (h : handleField p fd g = .ok (v, g2)) :
    ∃ a b g1, runField p fd g = .ok (a, g1) ∧
      runField p fd g1 = .ok (b, g2) ∧ v = .jList [a, b] := by
  rw [handleField, hmap] at h
  simp only [Bool.false_eq_true, if_false, hrep, if_true] at h
  cases h1 : runField p fd g with
  | error e => rw [h1] at h; simp [bind, Except.bind] at h
  | ok ag =>
    obtain ⟨a, g1⟩ := ag
    rw [h1] at h
    simp only [bind, Except.bind] at h
    cases h2 : runField p fd g1 with
    | error e => rw [h2] at h; simp [bind, Except.bind] at h
    | ok bg =>
      obtain ⟨b, g2x⟩ := bg
      rw [h2] at h
      simp only [bind, Except.bind, pure, Except.pure, Except.ok.injEq,
        Prod.mk.injEq] at h
      obtain ⟨hv, hg⟩ := h
      subst hg
      exact ⟨a, b, g1, rfl, h2, hv.symm⟩

/-- Witness for the amended C2 at a concrete repeated string field under
the Invalid policy. -/
theorem handleField_repeated_two_witness :
    ((FieldDesc.mk "variant_set_ids" .tString true).repeated = true) ∧
    (isMapEntry (.mk "variant_set_ids" .tString true) = false) ∧
    ∃ a b g1,
      runField (invalidPolicy Unit) (.mk "variant_set_ids" .tString true) ()
        = .ok (a, g1) ∧
      runField (invalidPolicy Unit) (.mk "variant_set_ids" .tString true) g1
        = .ok (b, ()) ∧
      JValue.jList [JValue.jInt 2, JValue.jInt 2] = .jList [a, b] :=
  ⟨rfl, rfl,
    handleField_repeated_two (invalidPolicy Unit)
      (.mk "variant_set_ids" .tString true) () () _ rfl rfl
      (by simp [handleField, runField, invalidPolicy, isMapEntry,
        FieldDesc.ftype, FieldDesc.repeated, bind, Except.bind, pure,
        Except.pure])⟩

/-! Claim C5 (corrected).  As with repeated fields, the map branch lives in
the shared `handleField` / `_runField` pair: every policy synthesizes a
map field to a ONE-entry dictionary mapping the synthesized key-field
value to the synthesized value-field value.  `TypicalInstanceCreator`'s
`handleMap` (`'key'` literal), `RandomInstanceCreator.handleMap`
(N random entries) and `InvalidInstanceCreator.handleMap` (string
sentinel) are never invoked by the dispatch. -/

/-- Counterexample to C5 as stated: under the Invalid policy a
`map<string,int32>` field synthesizes to the one-entry dictionary
from key `2` to value `invalidInt` — a mapping, not the claimed
wrong-shaped non-mapping sentinel (and Random-policy maps likewise get
exactly one entry through this same path rather than N). -/
theorem invalid_map_field_is_single_dict_cex :
    handleField (invalidPolicy Unit)
      (.mk "info" (.tMessage (.mk "ga4gh.Variant.InfoEntry" true
        [.mk "key" .tString false, .mk "value" .tInt32 false])) true) () =
      .ok (.jDict [(.jInt 2, .jStr "invalidInt")], ()) ∧
    ¬ (JValue.jDict [(JValue.jInt 2, JValue.jStr "invalidInt")]
        = .jStr "invalidMap") := by
  constructor
  · simp [handleField, runField, invalidPolicy, isMapEntry, FieldDesc.ftype,
      FieldDesc.repeated, MessageSchema.mapEntry, bind, Except.bind, pure,
      Except.pure]
  · intro h
    cases h

/-- C5 (amended). For every policy and every map field (a repeated
message field whose entry message carries the `map_entry` option and the
two sub-fields key and value), a successful synthesis returns a
dictionary with exactly one entry: the synthesized key-field value mapped
to the synthesized value-field value. -/
theorem handleField_map_single {σ : Type} (p : Policy σ) (fd : FieldDesc)
    (g g2 : σ) (v : JValue) (kf vf : FieldDesc) (rest : List FieldDesc)
    (hmap : isMapEntry fd = true)
    (hef : entryFields fd = kf :: vf :: rest)
    (h : handleField p fd g = .ok (v, g2)) :
    ∃ k kv g1, handleField p kf g = .ok (k, g1) ∧
      handleField p vf g1 = .ok (kv, g2) ∧ v = .jDict [(k, kv)] := by
  rw [handleField, hmap] at h
  simp only [if_true] at h
  obtain ⟨n, t, r⟩ := fd
  cases t with
  | tBool => simp [isMapEntry, FieldDesc.ftype] at hmap
  | tString => simp [isMapEntry, FieldDesc.ftype] at hmap
  | tInt32 => simp [isMapEntry, FieldDesc.ftype] at hmap
  | tInt64 => simp [isMapEntry, FieldDesc.ftype] at hmap
  | tFloat => simp [isMapEntry, FieldDesc.ftype] at hmap
  | tDouble => simp [isMapEntry, FieldDesc.ftype] at hmap
  | tEnum e => simp [isMapEntry, FieldDesc.ftype] at hmap
  | tMessage m =>
    obtain ⟨fn, me, fs⟩ := m
    simp only [isMapEntry, FieldDesc.ftype, MessageSchema.mapEntry] at hmap
    subst hmap
    simp only [entryFields, FieldDesc.ftype, MessageSchema.fields] at hef
    subst hef
    rw [runField] at h
    cases h1 : handleField p kf g with
    | error e => rw [h1] at h; simp [bind, Except.bind] at h
    | ok kg =>
      obtain ⟨k, g1⟩ := kg
      rw [h1] at h
      simp only [bind, Except.bind] at h
      cases h2 : handleField p vf g1 with
      | error e => rw [h2] at h; simp [bind, Except.bind] at h
      | ok vg =>
        obtain ⟨kv, g2x⟩ := vg
        rw [h2] at h
        simp only [bind, Except.bind, pure, Except.pure, Except.ok.injEq,
          Prod.mk.injEq] at h
        obtain ⟨hv, hg⟩ := h
        subst hg
        exact ⟨k, kv, g1, rfl, h2, hv.symm⟩

/-- Witness for the amended C5 at a concrete `map<string,int32>` field
under the Typical policy. -/
theorem handleField_map_single_witness :
    (isMapEntry (.mk "info" (.tMessage (.mk "ga4gh.Variant.InfoEntry" true
        [.mk "key" .tString false, .mk "value" .tInt32 false])) true)
      = true) ∧
    (entryFields (.mk "info" (.tMessage (.mk "ga4gh.Variant.InfoEntry" true
        [.mk "key" .tString false, .mk "value" .tInt32 false])) true)
      = [.mk "key" .tString false, .mk "value" .tInt32 false]) ∧
    ∃ k kv g1,
      handleField (typicalPolicy Unit) (.mk "key" .tString false) ()
        = .ok (k, g1) ∧
      handleField (typicalPolicy Unit) (.mk "value" .tInt32 false) g1
        = .ok (kv, ()) ∧
      JValue.jDict [(.jStr "aString", .jInt 5)] = .jDict [(k, kv)] :=
  ⟨rfl, rfl,
    handleField_map_single (typicalPolicy Unit)
      (.mk "info" (.tMessage (.mk "ga4gh.Variant.InfoEntry" true
        [.mk "key" .tString false, .mk "value" .tInt32 false])) true)
      () () _ (.mk "key" .tString false) (.mk "value" .tInt32 false) []
      rfl rfl
      (by simp [handleField, runField, typicalPolicy, isMapEntry,
        FieldDesc.ftype, FieldDesc.repeated, MessageSchema.mapEntry, bind,
        Except.bind, pure, Except.pure])⟩

/-! Claim C9. -/

/-- C9. For every policy, when synthesis reaches a message schema whose
full name is the designated generic-value sum type
`google.protobuf.Value`, the produced sub-tree is a dictionary with
exactly one entry — the numeric variant, keyed `numberValue` and holding
the policy's double rule result — and no recursion into the sum type's
fields happens. -/
theorem handleMessage_generic_value {σ : Type} (p : Policy σ)
    (m : MessageSchema) (g g1 : σ) (v : JValue)
    (hname : m.fullName = "google.protobuf.Value")
    (hd : p.handleDouble g = .ok (v, g1)) :
    handleMessage p m g = .ok (.jDict [(.jStr "numberValue", v)], g1) := by
  rw [handleMessage.eq_def, if_pos hname, hd]
  simp [bind, Except.bind, pure, Except.pure]

/-- Witness for C9: the full `google.protobuf.Value` schema (six oneof
variants) under the Typical policy synthesizes to the single-entry
numeric sub-tree. -/
theorem handleMessage_generic_value_witness :
    ((MessageSchema.mk "google.protobuf.Value" false
        [.mk "null_value" (.tEnum ⟨["NULL_VALUE"]⟩) false,
         .mk "number_value" .tDouble false,
         .mk "string_value" .tString false,
         .mk "bool_value" .tBool false,
         .mk "struct_value" (.tMessage (.mk "google.protobuf.Struct" false
           [])) false,
         .mk "list_value" (.tMessage (.mk "google.protobuf.ListValue" false
           [])) false]).fullName = "google.protobuf.Value") ∧
    ((typicalPolicy Unit).handleDouble () = .ok (.jFloat 8, ())) ∧
    handleMessage (typicalPolicy Unit)
      (.mk "google.protobuf.Value" false
        [.mk "null_value" (.tEnum ⟨["NULL_VALUE"]⟩) false,
         .mk "number_value" .tDouble false,
         .mk "string_value" .tString false,
         .mk "bool_value" .tBool false,
         .mk "struct_value" (.tMessage (.mk "google.protobuf.Struct" false
           [])) false,
         .mk "list_value" (.tMessage (.mk "google.protobuf.ListValue" false
           [])) false]) () =
      .ok (.jDict [(.jStr "numberValue", .jFloat 8)], ()) :=
  ⟨rfl, rfl,
    handleMessage_generic_value (typicalPolicy Unit) _ () () (.jFloat 8)
      rfl rfl⟩

/-! Claims C4 and C10: the absent-field-name behavior of
`getFieldValue`. -/

theorem loopVar_no_match {fs : List FieldDesc} {n : String}
    (hne : fs ≠ []) (h : ∀ f ∈ fs, ¬ f.name = n) :
    loopVar fs n = some (fs.getLast hne) := by
  induction fs with
  | nil => exact absurd rfl hne
  | cons f rest ih =>
    cases rest with
    | nil => rfl
    | cons f2 r2 =>
      rw [loopVar, if_neg (h f (by simp))]
      rw [ih (List.cons_ne_nil f2 r2) (fun x hx => h x (by simp [hx]))]
      rw [List.getLast_cons (List.cons_ne_nil f2 r2)]

/-- C10 (implicit claim). For every message type whose schema has at least
one field, calling `getFieldValue` with a field name matching no field
does not raise: the search loop leaves the loop variable bound to the
LAST declared field, so the call returns that field's synthesized value;
only a schema with zero fields makes the call fail (the loop variable is
read unbound — a `NameError`, not a `LookupError`). -/
theorem getFieldValue_unknown_name {σ : Type} (p : Policy σ)
    (schema : MessageSchema) (fieldName : String) (g : σ) :
    (schema.fields = [] →
      getFieldValue p schema fieldName g = .error .nameError) ∧
    ∀ (hne : ¬ schema.fields = []),
      (∀ f ∈ schema.fields, ¬ f.name = fieldName) →
      getFieldValue p schema fieldName g =
        handleField p (schema.fields.getLast hne) g := by
  constructor
  · intro h
    rw [getFieldValue, h]
    rfl
  · intro hne hnom
    rw [getFieldValue, loopVar_no_match hne hnom]

/-- Witness for C10 at a concrete two-field schema: the unknown name
`bogus` synthesizes the last declared field (`page_size`). -/
theorem getFieldValue_unknown_name_witness :
    (¬ (MessageSchema.mk "ga4gh.Demo" false
        [.mk "id" .tString false,
         .mk "page_size" .tInt32 false]).fields = []) ∧
    (∀ f ∈ (MessageSchema.mk "ga4gh.Demo" false
        [.mk "id" .tString false,
         .mk "page_size" .tInt32 false]).fields, ¬ f.name = "bogus") ∧
    getFieldValue (typicalPolicy Unit)
      (.mk "ga4gh.Demo" false
        [.mk "id" .tString false, .mk "page_size" .tInt32 false])
      "bogus" () =
      handleField (typicalPolicy Unit)
        ((MessageSchema.mk "ga4gh.Demo" false
          [.mk "id" .tString false,
           .mk "page_size" .tInt32 false]).fields.getLast
          (by exact List.cons_ne_nil _ _)) () :=
  ⟨by exact List.cons_ne_nil _ _, by decide,
    (getFieldValue_unknown_name (typicalPolicy Unit)
      (.mk "ga4gh.Demo" false
        [.mk "id" .tString false, .mk "page_size" .tInt32 false])
      "bogus" ()).2 (by exact List.cons_ne_nil _ _) (by decide)⟩

/-- C4 (code bug). The spec requires a `LookupError`-class failure for a
field name absent from the schema, and the search loop's structure makes
that the evident intent, but the missing no-match check means the call
instead returns the value synthesized for the LAST declared field: at the
failing input (a two-field schema queried for `notAField`) both entry
points return an ordinary value and raise nothing. -/
theorem getFieldValue_absent_name_returns_value :
    getFieldValue (typicalPolicy Unit)
      (.mk "ga4gh.SearchVariantsRequest" false
        [.mk "variant_set_id" .tString false,
         .mk "page_size" .tInt32 false]) "notAField" () =
      .ok (.jInt 5, ()) ∧
    getInvalidField
      (.mk "ga4gh.SearchVariantsRequest" false
        [.mk "variant_set_id" .tString false,
         .mk "page_size" .tInt32 false]) "notAField" () =
      .ok (.jStr "invalidInt", ()) := by
  constructor
  · simp [getFieldValue, loopVar, MessageSchema.fields, FieldDesc.name,
      handleField, runField, typicalPolicy, isMapEntry, FieldDesc.ftype,
      FieldDesc.repeated]
  · simp [getInvalidField, getFieldValue, loopVar, MessageSchema.fields,
      FieldDesc.name, handleField, runField, invalidPolicy, isMapEntry,
      FieldDesc.ftype, FieldDesc.repeated]

end Ga4gh
